import Mathlib

/-!
# goenvdir: directory-to-environment mapping and command execution

A shallow embedding of `main.go`.  Go strings are Lean strings, the Go map
`EnvironmentList` is an association list with unique keys, and the operating
system (directory listing, file reads, the inherited environment, process
execution) is a record of functions the program is run against.  Every effect
the program performs is appended to a trace of events.
-/

set_option linter.dupNamespace false

namespace Goenvdir

/-! ## Strings -/

/-- The constant `NEWLINE` of `main.go`. -/
def NEWLINE : String := "\n"

/-- The constant `EXIT_ERROR_CODE` of `main.go`. -/
def EXIT_ERROR_CODE : Int := 1

/-- The constant `EXIT_SUCCESS_CODE` of `main.go`. -/
def EXIT_SUCCESS_CODE : Int := 0

/-- Go `strings.TrimRight(s, cutset)`: `s` with every trailing character that
occurs in `cutset` removed. -/
def TrimRight (s cutset : String) : String :=
  ⟨s.data.rdropWhile (fun c => cutset.data.contains c)⟩

/-- Go `len(s)` for a string, zero exactly for the empty string. -/
def len (s : String) : Nat := s.utf8ByteSize

/-! ## The regular expression of `IsNameForVariable` -/

/-- Abstract syntax of the fragment of Go regular expressions used by the
program: the anchors, a character class given by inclusive ranges,
concatenation and the star. -/
inductive Regexp where
  | beginText : Regexp
  | endText : Regexp
  | charClass : List (Char × Char) → Regexp
  | concat : Regexp → Regexp → Regexp
  | star : Regexp → Regexp

/-- Membership of a character in a class given by inclusive ranges. -/
def inClass (ranges : List (Char × Char)) (c : Char) : Bool :=
  ranges.any (fun r => decide (r.1 ≤ c) && decide (c ≤ r.2))

/-- Iteration of a matcher `f` for the star: zero or more rounds, each of which
must consume input; `fuel` bounds the number of rounds. -/
def starLoop (f : Bool → List Char → List (Bool × List Char)) :
    Nat → Bool → List Char → List (Bool × List Char)
  | 0, b, s => [(b, s)]
  | fuel + 1, b, s =>
    (b, s) :: ((f b s).filter (fun p => decide (p.2.length < s.length))).flatMap
      (fun p => starLoop f fuel p.1 p.2)

/-- All ways of matching `r` at the current position: `atStart` tells whether
the position is the beginning of the text, the list is the rest of the text,
and each result is the position after one match. -/
def Regexp.run : Regexp → Bool → List Char → List (Bool × List Char)
  | .beginText, atStart, s => if atStart then [(atStart, s)] else []
  | .endText, atStart, s => if s.isEmpty then [(atStart, s)] else []
  | .charClass _, _, [] => []
  | .charClass ranges, _, c :: s => if inClass ranges c then [(false, s)] else []
  | .concat r₁ r₂, atStart, s => (r₁.run atStart s).flatMap (fun p => r₂.run p.1 p.2)
  | .star r, atStart, s => starLoop r.run s.length atStart s

/-- Unanchored search from every position of the text, the first of which is
the beginning of the text. -/
def searchFrom (r : Regexp) : Bool → List Char → Bool
  | atStart, [] => !(r.run atStart []).isEmpty
  | atStart, c :: s => !(r.run atStart (c :: s)).isEmpty || searchFrom r false s

/-- Go `(*Regexp).MatchString`: whether the text contains a match of `r`. -/
def Regexp.MatchString (r : Regexp) (s : String) : Bool :=
  searchFrom r true s.data

/-- The class `[a-zA-Z_$]`. -/
def headClass : List (Char × Char) :=
  [('a', 'z'), ('A', 'Z'), ('_', '_'), ('$', '$')]

/-- The class `[a-zA-Z_$0-9]`. -/
def tailClass : List (Char × Char) :=
  [('a', 'z'), ('A', 'Z'), ('_', '_'), ('$', '$'), ('0', '9')]

/-- The compiled pattern `^[a-zA-Z_$][a-zA-Z_$0-9]*$`. -/
def namePattern : Regexp :=
  .concat .beginText
    (.concat (.charClass headClass)
      (.concat (.star (.charClass tailClass)) .endText))

/-- The variable `IsNameForVariable` of `main.go`:
`regexp.MustCompile(...).MatchString`. -/
def IsNameForVariable (s : String) : Bool :=
  namePattern.MatchString s

/-! ## The operating system and the effects of the program -/

/-- Go `error` values met by the program: the ones it creates itself with
`fmt.Errorf`, and the ones that come back from `ioutil`, `os` and `os/exec`. -/
inductive Error where
  | errorf : String → Error
  | sys : String → Error
  deriving DecidableEq

/-- The method `Error()` of an error value: its message. -/
def Error.Error : Error → String
  | .errorf msg => msg
  | .sys msg => msg

/-- The part of `os.FileInfo` the program looks at. -/
structure FileInfo where
  Name : String
  IsDir : Bool
  deriving DecidableEq

/-- The standard streams of the calling process: `os.Stdin`, `os.Stdout` and
`os.Stderr`. -/
inductive File where
  | Stdin : File
  | Stdout : File
  | Stderr : File
  deriving DecidableEq

/-- The fields of `exec.Cmd` the program sets; a stream that is `none` is the
nil of Go. -/
structure Cmd where
  Path : String
  Args : List String
  Env : List String
  Stdin : Option File
  Stdout : Option File
  Stderr : Option File
  deriving DecidableEq

/-- Go `exec.Command(name, arg...)`: a command with the program name as its
path and as its first argument, and nothing else set. -/
def Command (name : String) (arg : List String) : Cmd :=
  { Path := name, Args := name :: arg, Env := [], Stdin := none, Stdout := none,
    Stderr := none }

/-- The operating system the program runs against: `ioutil.ReadDir`,
`ioutil.ReadFile`, `filepath.Join`, `os.Environ` and `(*exec.Cmd).Run`.  A
failing call gives the message of its error. -/
structure OS where
  ReadDir : String → Except String (List FileInfo)
  ReadFile : String → Except String String
  Join : String → String → String
  Environ : List String
  Run : Cmd → Option String

/-- The effects of the program, in the order they happen.  The printing events
record the format string and its arguments. -/
inductive Event where
  | ioutilReadDir : String → Event
  | ioutilReadFile : String → Event
  | Printf : String → List String → Event
  | Fprint : File → String → Event
  | Fprintf : File → String → Event
  | execCommand : String → List String → Event
  | cmdRun : Cmd → Event
  | Exit : Int → Event
  deriving DecidableEq

/-! ## EnvironmentList -/

/-- The type `EnvironmentList` of `main.go`, a Go `map[string]string`: the
entries of the map, no key twice.  The order of the list is the order in which
a `range` over the map visits the entries, which Go leaves unspecified. -/
abbrev EnvironmentList := List (String × String)

/-- The keys of the map. -/
def EnvironmentList.keys (e : EnvironmentList) : List String :=
  e.map Prod.fst

/-- Lookup `e[key]` with the comma-ok result. -/
def EnvironmentList.get (e : EnvironmentList) (key : String) : Option String :=
  e.lookup key

/-- Assignment `e[key] = value`: the entry of `key`, if any, is replaced. -/
def EnvironmentList.set (e : EnvironmentList) (key value : String) : EnvironmentList :=
  (key, value) :: e.filter (fun p => p.1 != key)

/-- The method `stringify` of `main.go`: one string `key=value` for each entry
the `range` visits, in the order of the visit. -/
def EnvironmentList.stringify (e : EnvironmentList) : List String :=
  e.map (fun p => p.1 ++ "=" ++ p.2)

/-! ## ReadDir -/

/-- The state of the scan of `ReadDir`: the map built so far and the effects
performed so far. -/
structure ScanState where
  env : EnvironmentList
  trace : List Event
  deriving DecidableEq

/-- The body of the `for` loop of `ReadDir`, run for one entry of the
listing. -/
def ReadDir.body (os : OS) (dir : String) (st : ScanState) (file : FileInfo) : ScanState :=
  if file.IsDir then st
  else
    let fileName := file.Name
    let filePath := os.Join dir fileName
    if !IsNameForVariable fileName then st
    else
      match os.ReadFile filePath with
      | .error _ =>
        { st with trace := st.trace ++ [.ioutilReadFile filePath,
            .Printf "something bad happened when trying to read file %s\n" [fileName]] }
      | .ok content =>
        let value := TrimRight content NEWLINE
        if len value != 0 then
          { env := st.env.set fileName value, trace := st.trace ++ [.ioutilReadFile filePath] }
        else
          { st with trace := st.trace ++ [.ioutilReadFile filePath] }

/-- What `ReadDir` returns, and the effects it performed. -/
structure ReadDirResult where
  env : EnvironmentList
  err : Option Error
  trace : List Event
  deriving DecidableEq

/-- The function `ReadDir` of `main.go`. -/
def ReadDir (os : OS) (dir : String) : ReadDirResult :=
  let env : EnvironmentList := []
  match os.ReadDir dir with
  | .error err => { env := env, err := some (.sys err), trace := [.ioutilReadDir dir] }
  | .ok files =>
    let st := files.foldl (ReadDir.body os dir) { env := env, trace := [.ioutilReadDir dir] }
    { env := st.env, err := none, trace := st.trace }

/-! ## RunCmd -/

/-- The process configuration `RunCmd` builds for a non-empty command: lines
75 to 80 of `main.go`. -/
def RunCmd.command (os : OS) (name : String) (args : List String) (env : EnvironmentList) :
    Cmd :=
  let command := Command name args
  let command := { command with Stdin := some File.Stdin }
  let command := { command with Stdout := some File.Stdout }
  let command := { command with Stderr := some File.Stdin }
  { command with Env := os.Environ ++ env.stringify }

/-- What `RunCmd` returns, and the effects it performed. -/
structure RunCmdResult where
  err : Option Error
  trace : List Event
  deriving DecidableEq

/-- The function `RunCmd` of `main.go`. -/
def RunCmd (os : OS) (cmd : List String) (env : EnvironmentList) : RunCmdResult :=
  match cmd with
  | [] => { err := some (.errorf "command to run is empty"), trace := [] }
  | name :: args =>
    let command := RunCmd.command os name args env
    match os.Run command with
    | some err => { err := some (.sys err), trace := [.execCommand name args, .cmdRun command] }
    | none => { err := none, trace := [.execCommand name args, .cmdRun command] }

/-! ## The entry point -/

/-- The package variables `EnvDirPath` and `CmdToRun`. -/
structure Globals where
  EnvDirPath : String
  CmdToRun : List String
  deriving DecidableEq

/-- The function `init` of `main.go`, from the zero values of the package
variables and `os.Args`. -/
def init (Args : List String) : Globals :=
  if Args.length < 3 then { EnvDirPath := "", CmdToRun := [] }
  else { EnvDirPath := Args.getD 1 "", CmdToRun := Args.drop 2 }

/-- The message `main` prints when an argument is missing. -/
def usageMessage : String :=
  "you should pass the path to dir for environment variables and command to run\n"

/-- The function `main` of `main.go`, after `init`: the effects of the whole
program, the last of which is the exit. -/
def main (os : OS) (Args : List String) : List Event :=
  let g := init Args
  if len g.EnvDirPath == 0 || g.CmdToRun.length == 0 then
    [.Fprint File.Stderr usageMessage, .Exit EXIT_ERROR_CODE]
  else
    let r := ReadDir os g.EnvDirPath
    match r.err with
    | some err =>
      r.trace ++ [.Fprintf File.Stderr (err.Error ++ "\n"), .Exit EXIT_ERROR_CODE]
    | none =>
      let c := RunCmd os g.CmdToRun r.env
      match c.err with
      | some err =>
        r.trace ++ c.trace ++ [.Fprintf File.Stderr (err.Error ++ "\n"), .Exit EXIT_ERROR_CODE]
      | none => r.trace ++ c.trace ++ [.Exit EXIT_SUCCESS_CODE]

/-! ## Notions the properties are stated with -/

/-- An entry `KEY=VALUE` of an environment split at its first `=`; an entry
without `=` names no variable. -/
def splitKV (kv : String) : Option (String × String) :=
  match kv.data.dropWhile (fun c => c != '=') with
  | [] => none
  | _ :: value => some (⟨kv.data.takeWhile (fun c => c != '=')⟩, ⟨value⟩)

/-- One step of the lookup in an environment: an entry of `key` replaces what
was found before it. -/
def lookupStep (key : String) (found : Option String) (kv : String) : Option String :=
  match splitKV kv with
  | some (k, v) => if k = key then some v else found
  | none => found

/-- The value of `key` in an environment given as a list of `KEY=VALUE`
strings, where the last entry of a key is the one that counts. -/
def lookupEnv (environ : List String) (key : String) : Option String :=
  environ.foldl (lookupStep key) none

/-- A file system for the examples: the directory `/env` with the entries of
the tests of `main_test.go`, one subdirectory and one unreadable file. -/
def exampleOS : OS where
  ReadDir := fun dir =>
    if dir = "/env" then
      .ok [⟨"A", false⟩, ⟨"B_B", false⟩, ⟨"CcC", false⟩, ⟨"Dd12", false⟩, ⟨"E", false⟩,
        ⟨"F", false⟩, ⟨"G", true⟩, ⟨"B.txt", false⟩, ⟨"H", false⟩]
    else .error ("open " ++ dir ++ ": no such file or directory")
  ReadFile := fun path =>
    if path = "/env/A" then .ok "123"
    else if path = "/env/B_B" then .ok "456\n"
    else if path = "/env/CcC" then .ok "789\n\n"
    else if path = "/env/Dd12" then .ok "1011\n\n12"
    else if path = "/env/E" then .ok ""
    else if path = "/env/F" then .ok "\n\n"
    else if path = "/env/B.txt" then .ok "123"
    else .error ("open " ++ path ++ ": permission denied")
  Join := fun dir name => dir ++ "/" ++ name
  Environ := ["PATH=/bin", "A=1", "HOME=/root"]
  Run := fun c => if c.Path = "env" then none else some "exit status 1"

/-- The file system of the examples with the unreadable file `H` removed from
the directory `/env`. -/
def exampleOSWithoutH : OS :=
  { exampleOS with
    ReadDir := fun dir =>
      if dir = "/env" then
        .ok [⟨"A", false⟩, ⟨"B_B", false⟩, ⟨"CcC", false⟩, ⟨"Dd12", false⟩, ⟨"E", false⟩,
          ⟨"F", false⟩, ⟨"G", true⟩, ⟨"B.txt", false⟩]
      else .error ("open " ++ dir ++ ": no such file or directory") }

/-- The value one entry of the listing adds to the map, if it adds one: the
loop body seen from the map alone. -/
def entryValue (os : OS) (dir : String) (file : FileInfo) : Option String :=
  if file.IsDir then none
  else if !IsNameForVariable file.Name then none
  else
    match os.ReadFile (os.Join dir file.Name) with
    | .error _ => none
    | .ok content =>
      if len (TrimRight content NEWLINE) != 0 then some (TrimRight content NEWLINE) else none

/-! ## Characters and the pattern -/

theorem char_eq_of_toNat (c d : Char) (h : c.val.toNat = d.val.toNat) : c = d := by
  apply Char.ext
  apply UInt32.ext
  exact h

theorem char_le_iff (c d : Char) : c ≤ d ↔ c.val.toNat ≤ d.val.toNat := Iff.rfl

theorem inClass_headClass (c : Char) :
    inClass headClass c = (c.isAlpha || c == '_' || c == '$') := by
  have h1 : c = '_' ↔ c.val.toNat = 95 := 
    ⟨fun h => by rw [h]; rfl, fun h => char_eq_of_toNat _ _ h⟩
  have h2 : c = '$' ↔ c.val.toNat = 36 := 
    ⟨fun h => by rw [h]; rfl, fun h => char_eq_of_toNat _ _ h⟩
  have e1 : 'a'.val.toNat = 97 := rfl
  have e2 : 'z'.val.toNat = 122 := rfl
  have e3 : 'A'.val.toNat = 65 := rfl
  have e4 : 'Z'.val.toNat = 90 := rfl
  have e5 : '_'.val.toNat = 95 := rfl
  have e6 : '$'.val.toNat = 36 := rfl
  have g1 : ∀ n : UInt32, c.val ≥ n ↔ n.toNat ≤ c.val.toNat := fun n => Iff.rfl
  have g2 : ∀ n : UInt32, c.val ≤ n ↔ c.val.toNat ≤ n.toNat := fun n => Iff.rfl
  have k1 : (65 : UInt32).toNat = 65 := rfl
  have k2 : (90 : UInt32).toNat = 90 := rfl
  have k3 : (97 : UInt32).toNat = 97 := rfl
  have k4 : (122 : UInt32).toNat = 122 := rfl
  simp only [inClass, headClass, List.any_cons, List.any_nil, Char.isAlpha, Char.isUpper,
    Char.isLower, Bool.or_false]
  rw [Bool.eq_iff_iff]
  simp only [Bool.or_eq_true, Bool.and_eq_true, decide_eq_true_eq, beq_iff_eq, char_le_iff,
    g1, g2, h1, h2, e1, e2, e3, e4, e5, e6, k1, k2, k3, k4]
  omega

theorem inClass_tailClass (c : Char) :
    inClass tailClass c = (c.isAlpha || c.isDigit || c == '_' || c == '$') := by
  have h1 : c = '_' ↔ c.val.toNat = 95 :=
    ⟨fun h => by rw [h]; rfl, fun h => char_eq_of_toNat _ _ h⟩
  have h2 : c = '$' ↔ c.val.toNat = 36 :=
    ⟨fun h => by rw [h]; rfl, fun h => char_eq_of_toNat _ _ h⟩
  have e1 : 'a'.val.toNat = 97 := rfl
  have e2 : 'z'.val.toNat = 122 := rfl
  have e3 : 'A'.val.toNat = 65 := rfl
  have e4 : 'Z'.val.toNat = 90 := rfl
  have e5 : '_'.val.toNat = 95 := rfl
  have e6 : '$'.val.toNat = 36 := rfl
  have e7 : '0'.val.toNat = 48 := rfl
  have e8 : '9'.val.toNat = 57 := rfl
  have g1 : ∀ n : UInt32, c.val ≥ n ↔ n.toNat ≤ c.val.toNat := fun n => Iff.rfl
  have g2 : ∀ n : UInt32, c.val ≤ n ↔ c.val.toNat ≤ n.toNat := fun n => Iff.rfl
  have k1 : (65 : UInt32).toNat = 65 := rfl
  have k2 : (90 : UInt32).toNat = 90 := rfl
  have k3 : (97 : UInt32).toNat = 97 := rfl
  have k4 : (122 : UInt32).toNat = 122 := rfl
  have k5 : (48 : UInt32).toNat = 48 := rfl
  have k6 : (57 : UInt32).toNat = 57 := rfl
  simp only [inClass, tailClass, List.any_cons, List.any_nil, Char.isAlpha, Char.isUpper,
    Char.isLower, Char.isDigit, Bool.or_false]
  rw [Bool.eq_iff_iff]
  simp only [Bool.or_eq_true, Bool.and_eq_true, decide_eq_true_eq, beq_iff_eq, char_le_iff,
    g1, g2, h1, h2, e1, e2, e3, e4, e5, e6, e7, e8, k1, k2, k3, k4, k5, k6]
  omega

/-- The star of a character class reaches the end of the text exactly when
every remaining character is in the class. -/
theorem starLoop_charClass_end (cs : List (Char × Char)) :
    ∀ (n : Nat) (b : Bool) (s : List Char), s.length ≤ n →
      ((∃ p ∈ starLoop (Regexp.charClass cs).run n b s, p.2 = []) ↔
        ∀ c ∈ s, inClass cs c = true) := by
  intro n
  induction n with
  | zero =>
    intro b s hs
    have : s = [] := List.length_eq_zero.mp (Nat.le_zero.mp hs)
    subst this
    simp [starLoop]
  | succ n ih =>
    intro b s hs
    cases s with
    | nil => simp [starLoop]
    | cons c t =>
      have ht : t.length ≤ n := by simpa using hs
      by_cases hc : inClass cs c = true
      · simp [starLoop, Regexp.run, hc, ← ih false t ht]
      · simp [starLoop, Regexp.run, hc]

theorem flatMap_isEmpty_eq_false {α β : Type} (l : List α) (f : α → List β) :
    (l.flatMap f).isEmpty = false ↔ ∃ p ∈ l, (f p).isEmpty = false := by
  induction l with
  | nil => simp
  | cons a l ih =>
    simp only [List.flatMap_cons, List.isEmpty_eq_false_iff_exists_mem, List.mem_append,
      List.mem_cons, exists_eq_or_imp] at ih ⊢
    constructor
    · rintro ⟨x, hx | hx⟩
      · exact Or.inl ⟨x, hx⟩
      · exact Or.inr (ih.mp ⟨x, hx⟩)
    · rintro (⟨x, hx⟩ | h)
      · exact ⟨x, Or.inl hx⟩
      · obtain ⟨x, hx⟩ := ih.mpr h
        exact ⟨x, Or.inr hx⟩

theorem run_endText_isEmpty (p : Bool × List Char) :
    (Regexp.endText.run p.1 p.2).isEmpty = false ↔ p.2 = [] := by
  cases h : p.2 <;> simp [Regexp.run, h]

theorem run_namePattern (b : Bool) (s : List Char) :
    (namePattern.run b s).isEmpty = false ↔
      b = true ∧ ∃ c t, s = c :: t ∧ inClass headClass c = true ∧
        ∀ d ∈ t, inClass tailClass d = true := by
  cases b with
  | false => simp [namePattern, Regexp.run]
  | true =>
    cases s with
    | nil => simp [namePattern, Regexp.run]
    | cons c t =>
      by_cases hc : inClass headClass c = true
      · have key := starLoop_charClass_end tailClass t.length false t (le_refl _)
        have step : (namePattern.run true (c :: t)).isEmpty = false ↔
            ∃ p ∈ starLoop (Regexp.charClass tailClass).run t.length false t, p.2 = [] := by
          simp only [namePattern, Regexp.run, if_true, List.flatMap_cons, List.flatMap_nil,
            List.append_nil, hc]
          rw [flatMap_isEmpty_eq_false]
          constructor
          · rintro ⟨p, hp, h⟩
            exact ⟨p, hp, (run_endText_isEmpty p).mp h⟩
          · rintro ⟨p, hp, h⟩
            exact ⟨p, hp, (run_endText_isEmpty p).mpr h⟩
        rw [step, key]
        constructor
        · intro h
          exact ⟨rfl, c, t, rfl, hc, h⟩
        · rintro ⟨-, c', t', heq, -, h⟩
          cases heq
          exact h
      · simp [namePattern, Regexp.run, hc]

theorem searchFrom_namePattern_false (s : List Char) :
    searchFrom namePattern false s = false := by
  have hrun : ∀ t, (namePattern.run false t).isEmpty = true := by
    intro t
    cases h : (namePattern.run false t).isEmpty with
    | true => rfl
    | false => exact absurd ((run_namePattern false t).mp h).1 (by simp)
  induction s with
  | nil => simp [searchFrom, hrun]
  | cons c t ih => simp [searchFrom, hrun, ih]

theorem IsNameForVariable_iff (s : String) :
    IsNameForVariable s = true ↔
      ∃ c t, s.data = c :: t ∧ inClass headClass c = true ∧
        ∀ d ∈ t, inClass tailClass d = true := by
  unfold IsNameForVariable Regexp.MatchString
  cases hs : s.data with
  | nil =>
    have h := run_namePattern true []
    simp only [searchFrom]
    cases hr : (namePattern.run true []).isEmpty with
    | true => simp
    | false =>
      obtain ⟨-, c, t, hct, -⟩ := h.mp hr
      cases hct
  | cons c t =>
    have h := run_namePattern true (c :: t)
    simp only [searchFrom, searchFrom_namePattern_false, Bool.or_false, Bool.not_eq_true',
      true_and] at h ⊢
    exact h

/-! ## Strings: length and trimming -/

theorem utf8ByteSize_go_pos (c : Char) (cs : List Char) :
    0 < String.utf8ByteSize.go (c :: cs) := by
  have := c.utf8Size_pos
  simp only [String.utf8ByteSize.go]
  omega

theorem len_eq_zero_iff (s : String) : len s = 0 ↔ s = "" := by
  obtain ⟨cs⟩ := s
  cases cs with
  | nil => simp [len, String.utf8ByteSize, String.utf8ByteSize.go]
  | cons c cs =>
    have h := utf8ByteSize_go_pos c cs
    simp only [len, String.utf8ByteSize]
    constructor
    · intro h0; omega
    · intro h0
      exact absurd (congrArg String.data h0) (by simp)

theorem len_bne_zero (s : String) : (len s != 0) = true ↔ s ≠ "" := by
  simp [len_eq_zero_iff]

theorem newline_cutset (c : Char) : NEWLINE.data.contains c = true ↔ c = '\n' := by
  simp [NEWLINE]

/-- Trimming splits the content into the value and a run of cutset
characters. -/
theorem rdropWhile_split (p : Char → Bool) (l : List Char) :
    ∃ t, l = l.rdropWhile p ++ t ∧ ∀ c ∈ t, p c = true := by
  induction l using List.reverseRecOn with
  | nil => exact ⟨[], by simp, by simp⟩
  | append_singleton l a ih =>
    by_cases ha : p a = true
    · obtain ⟨t, ht, hall⟩ := ih
      refine ⟨t ++ [a], ?_, ?_⟩
      · rw [List.rdropWhile_concat_pos _ _ _ ha, ← List.append_assoc, ← ht]
      · intro c hc
        rcases List.mem_append.mp hc with h | h
        · exact hall c h
        · rw [List.mem_singleton.mp h]; exact ha
    · exact ⟨[], by rw [List.rdropWhile_concat_neg _ _ _ ha]; simp, by simp⟩

theorem rdropWhile_not_concat (p : Char → Bool) (l w : List Char) (a : Char)
    (ha : p a = true) : l.rdropWhile p ≠ w ++ [a] := by
  intro h
  have hne : l.rdropWhile p ≠ [] := by rw [h]; simp
  have hlast := List.rdropWhile_last_not p l hne
  have : (l.rdropWhile p).getLast hne = a := by
    simp only [h, List.getLast_append_singleton]
  rw [this] at hlast
  exact hlast ha

theorem TrimRight_newline_split (c : String) :
    ∃ k : Nat, c = TrimRight c NEWLINE ++ ⟨List.replicate k '\n'⟩ := by
  obtain ⟨t, ht, hall⟩ := rdropWhile_split (fun ch => NEWLINE.data.contains ch) c.data
  refine ⟨t.length, String.ext ?_⟩
  have hrep : t = List.replicate t.length '\n' :=
    List.eq_replicate_iff.mpr ⟨rfl, fun b hb => (newline_cutset b).mp (hall b hb)⟩
  rw [String.data_append, ← hrep]
  exact ht

theorem TrimRight_newline_no_suffix (c w : String) : TrimRight c NEWLINE ≠ w ++ NEWLINE := by
  intro h
  have hd := congrArg String.data h
  rw [String.data_append] at hd
  exact rdropWhile_not_concat (fun ch => NEWLINE.data.contains ch) c.data w.data '\n'
    (by decide) hd

theorem TrimRight_eq_empty_iff (c : String) :
    TrimRight c NEWLINE = "" ↔ ∀ ch ∈ c.data, ch = '\n' := by
  constructor
  · intro h
    have hd : c.data.rdropWhile (fun ch => NEWLINE.data.contains ch) = [] :=
      congrArg String.data h
    rw [List.rdropWhile_eq_nil_iff] at hd
    intro ch hch
    exact (newline_cutset ch).mp (hd ch hch)
  · intro h
    apply String.ext
    show c.data.rdropWhile (fun ch => NEWLINE.data.contains ch) = []
    rw [List.rdropWhile_eq_nil_iff]
    intro ch hch
    exact (newline_cutset ch).mpr (h ch hch)

/-! ## The map -/

theorem mem_keys_set (e : EnvironmentList) (k v n : String) :
    n ∈ (e.set k v).keys ↔ n = k ∨ n ∈ e.keys := by
  by_cases hn : n = k
  · simp [EnvironmentList.keys, EnvironmentList.set, hn]
  · simp [EnvironmentList.keys, EnvironmentList.set, hn]

theorem nodup_keys_set (e : EnvironmentList) (k v : String) (h : e.keys.Nodup) :
    (e.set k v).keys.Nodup := by
  simp only [EnvironmentList.keys, EnvironmentList.set, List.map_cons, List.nodup_cons]
  constructor
  · simp
  · exact (List.filter_sublist e).map Prod.fst |>.nodup h

theorem lookup_filter_ne (e : EnvironmentList) (k n : String) (h : n ≠ k) :
    (e.filter (fun p => p.1 != k)).lookup n = e.lookup n := by
  induction e with
  | nil => rfl
  | cons a e ih =>
    obtain ⟨a1, a2⟩ := a
    by_cases ha : a1 = k
    · subst ha
      have hn : (n == a1) = false := by simpa using h
      simp [List.filter_cons, List.lookup_cons, hn, ih]
    · have hk : (a1 != k) = true := by simpa using ha
      simp only [List.filter_cons, hk, if_true, List.lookup_cons, ih]

theorem get_set (e : EnvironmentList) (k v n : String) :
    (e.set k v).get n = if n = k then some v else e.get n := by
  by_cases h : n = k
  · subst h
    simp [EnvironmentList.get, EnvironmentList.set]
  · have hn : (n == k) = false := by simpa using h
    simp only [EnvironmentList.get, EnvironmentList.set, List.lookup_cons, hn, h, if_false]
    exact lookup_filter_ne e k n h

theorem get_ne_none_iff (e : EnvironmentList) (n : String) :
    e.get n ≠ none ↔ n ∈ e.keys := by
  simp [EnvironmentList.get, EnvironmentList.keys]

/-! ## The scan of ReadDir -/

theorem body_env (os : OS) (dir : String) (st : ScanState) (f : FileInfo) :
    (ReadDir.body os dir st f).env =
      match entryValue os dir f with
      | some v => st.env.set f.Name v
      | none => st.env := by
  unfold ReadDir.body entryValue
  by_cases h1 : f.IsDir = true
  · simp [h1]
  · by_cases h2 : IsNameForVariable f.Name = true
    · simp only [h1, h2, Bool.not_true, if_false, Bool.false_eq_true]
      cases os.ReadFile (os.Join dir f.Name) with
      | error e => rfl
      | ok c =>
        by_cases h3 : (len (TrimRight c NEWLINE) != 0) = true
        · simp only [h3, if_true]
        · simp [h3]
    · simp [h1, h2]

theorem entryValue_eq_some_iff (os : OS) (dir : String) (f : FileInfo) (v : String) :
    entryValue os dir f = some v ↔
      f.IsDir = false ∧ IsNameForVariable f.Name = true ∧
        ∃ c, os.ReadFile (os.Join dir f.Name) = .ok c ∧ v = TrimRight c NEWLINE ∧ v ≠ "" := by
  unfold entryValue
  by_cases h1 : f.IsDir = true
  · simp [h1]
  · by_cases h2 : IsNameForVariable f.Name = true
    · simp only [h1, h2, Bool.not_true, if_false, Bool.false_eq_true, Bool.not_eq_true, true_and]
      cases hr : os.ReadFile (os.Join dir f.Name) with
      | error e => simp
      | ok c =>
        by_cases h3 : (len (TrimRight c NEWLINE) != 0) = true
        · have h3' := (len_bne_zero _).mp h3
          simp only [h3, if_true, Option.some.injEq, Except.ok.injEq, exists_eq_left']
          constructor
          · intro h; subst h; exact ⟨rfl, h3'⟩
          · rintro ⟨h, -⟩; exact h.symm
        · have h3' : TrimRight c NEWLINE = "" := by
            by_contra hne
            exact h3 ((len_bne_zero _).mpr hne)
          simp only [h3, Except.ok.injEq, exists_eq_left']
          constructor
          · intro h; simp at h
          · rintro ⟨h, hne⟩
            exact absurd (h.trans h3') hne
    · simp [h1, h2]

theorem fold_keys (os : OS) (dir : String) (files : List FileInfo) :
    ∀ (st : ScanState) (n : String),
      n ∈ (files.foldl (ReadDir.body os dir) st).env.keys ↔
        n ∈ st.env.keys ∨ ∃ f ∈ files, f.Name = n ∧ ∃ v, entryValue os dir f = some v := by
  induction files with
  | nil => intro st n; simp
  | cons f files ih =>
    intro st n
    rw [List.foldl_cons, ih, body_env]
    cases hv : entryValue os dir f with
    | none => simp [hv]
    | some v =>
      simp only [mem_keys_set, List.mem_cons, exists_eq_or_imp, hv, Option.some.injEq,
        exists_eq', and_true]
      constructor
      · rintro ((h | h) | h)
        · exact Or.inr (Or.inl h.symm)
        · exact Or.inl h
        · exact Or.inr (Or.inr h)
      · rintro (h | h | h)
        · exact Or.inl (Or.inr h)
        · exact Or.inl (Or.inl h.symm)
        · exact Or.inr h

theorem fold_nodup (os : OS) (dir : String) (files : List FileInfo) :
    ∀ st : ScanState, st.env.keys.Nodup →
      (files.foldl (ReadDir.body os dir) st).env.keys.Nodup := by
  induction files with
  | nil => intro st h; exact h
  | cons f files ih =>
    intro st h
    rw [List.foldl_cons]
    apply ih
    rw [body_env]
    cases entryValue os dir f with
    | none => exact h
    | some v => exact nodup_keys_set _ _ _ h

theorem fold_get (os : OS) (dir : String) (files : List FileInfo) :
    ∀ (st : ScanState) (n v : String),
      (files.foldl (ReadDir.body os dir) st).env.get n = some v →
        st.env.get n = some v ∨ ∃ f ∈ files, f.Name = n ∧ entryValue os dir f = some v := by
  induction files with
  | nil => intro st n v h; exact Or.inl h
  | cons f files ih =>
    intro st n v h
    rw [List.foldl_cons] at h
    rcases ih _ n v h with h' | ⟨g, hg, hn, hv⟩
    · rw [body_env] at h'
      cases hv : entryValue os dir f with
      | none => rw [hv] at h'; exact Or.inl h'
      | some w =>
        rw [hv] at h'
        simp only [get_set] at h'
        by_cases hn : n = f.Name
        · rw [if_pos hn] at h'
          exact Or.inr ⟨f, List.mem_cons_self _ _, hn.symm, by rw [hv, h']⟩
        · rw [if_neg hn] at h'
          exact Or.inl h'
    · exact Or.inr ⟨g, List.mem_cons_of_mem _ hg, hn, hv⟩

theorem ReadDir_ok (os : OS) (dir : String) (files : List FileInfo)
    (h : os.ReadDir dir = .ok files) :
    ReadDir os dir =
      { env := (files.foldl (ReadDir.body os dir) { env := [], trace := [.ioutilReadDir dir] }).env,
        err := none,
        trace :=
          (files.foldl (ReadDir.body os dir) { env := [], trace := [.ioutilReadDir dir] }).trace } := by
  simp only [ReadDir, h]

theorem fold_env_congr (os : OS) (dir : String) (files : List FileInfo) :
    ∀ st st' : ScanState, st.env = st'.env →
      (files.foldl (ReadDir.body os dir) st).env =
        (files.foldl (ReadDir.body os dir) st').env := by
  induction files with
  | nil => intro st st' h; exact h
  | cons f files ih =>
    intro st st' h
    rw [List.foldl_cons, List.foldl_cons]
    apply ih
    rw [body_env, body_env, h]

theorem body_trace_extends (os : OS) (dir : String) (st : ScanState) (f : FileInfo) :
    ∃ evs, (ReadDir.body os dir st f).trace = st.trace ++ evs := by
  unfold ReadDir.body
  by_cases h1 : f.IsDir = true
  · exact ⟨[], by simp [h1]⟩
  · by_cases h2 : IsNameForVariable f.Name = true
    · simp only [h1, h2, Bool.not_true, if_false, Bool.false_eq_true]
      cases os.ReadFile (os.Join dir f.Name) with
      | error e => exact ⟨_, rfl⟩
      | ok c =>
        by_cases h3 : (len (TrimRight c NEWLINE) != 0) = true
        · exact ⟨[.ioutilReadFile (os.Join dir f.Name)], by simp only [h3, if_true]⟩
        · exact ⟨[.ioutilReadFile (os.Join dir f.Name)], by simp [h3]⟩
    · exact ⟨[], by simp [h1, h2]⟩

theorem fold_trace_extends (os : OS) (dir : String) (files : List FileInfo) :
    ∀ st : ScanState, ∃ evs,
      (files.foldl (ReadDir.body os dir) st).trace = st.trace ++ evs := by
  induction files with
  | nil => intro st; exact ⟨[], by simp⟩
  | cons f files ih =>
    intro st
    rw [List.foldl_cons]
    obtain ⟨evs, h⟩ := ih (ReadDir.body os dir st f)
    obtain ⟨evs', h'⟩ := body_trace_extends os dir st f
    exact ⟨evs' ++ evs, by rw [h, h', List.append_assoc]⟩

theorem body_read_error (os : OS) (dir : String) (st : ScanState) (f : FileInfo) (msg : String)
    (hdir : f.IsDir = false) (hname : IsNameForVariable f.Name = true)
    (hread : os.ReadFile (os.Join dir f.Name) = .error msg) :
    ReadDir.body os dir st f =
      { st with trace := st.trace ++ [.ioutilReadFile (os.Join dir f.Name),
          .Printf "something bad happened when trying to read file %s\n" [f.Name]] } := by
  simp [ReadDir.body, hdir, hname, hread]

theorem body_congr (os os' : OS) (dir : String) (hfile : os'.ReadFile = os.ReadFile)
    (hjoin : os'.Join = os.Join) : ReadDir.body os' dir = ReadDir.body os dir := by
  funext st f
  simp only [ReadDir.body, hfile, hjoin]

theorem headClass_sub_tailClass (c : Char) (h : inClass headClass c = true) :
    inClass tailClass c = true := by
  rw [inClass_headClass] at h
  rw [inClass_tailClass]
  simp only [Bool.or_eq_true] at h ⊢
  rcases h with (h | h) | h
  · exact Or.inl (Or.inl (Or.inl h))
  · exact Or.inl (Or.inr h)
  · exact Or.inr h

theorem IsNameForVariable_chars (s : String) (h : IsNameForVariable s = true) :
    ∀ ch ∈ s.data, inClass tailClass ch = true := by
  obtain ⟨c, t, hs, hc, ht⟩ := (IsNameForVariable_iff s).mp h
  intro ch hch
  rw [hs] at hch
  rcases List.mem_cons.mp hch with h' | h'
  · rw [h']; exact headClass_sub_tailClass c hc
  · exact ht ch h'

/-! ## The properties of the specification -/

/-- C3: `IsNameForVariable s` holds exactly when `s` is non-empty, its first
character is a letter, an underscore or a dollar sign, and every later
character is a letter, a digit, an underscore or a dollar sign; the names
`B.txt`, `B-?*A`, `12BC`, the empty name and every name with a newline or an
`=` in it are rejected. -/
theorem IsNameForVariable_spec :
    (∀ s : String, IsNameForVariable s = true ↔
      s ≠ "" ∧ ∃ c t, s.data = c :: t ∧ (c.isAlpha = true ∨ c = '_' ∨ c = '$') ∧
        ∀ d ∈ t, d.isAlpha = true ∨ d.isDigit = true ∨ d = '_' ∨ d = '$') ∧
    IsNameForVariable "B.txt" = false ∧ IsNameForVariable "B-?*A" = false ∧
    IsNameForVariable "12BC" = false ∧ IsNameForVariable "" = false ∧
    (∀ s : String, ('\n' ∈ s.data ∨ '=' ∈ s.data) → IsNameForVariable s = false) := by
  refine ⟨?_, by decide, by decide, by decide, by decide, ?_⟩
  · intro s
    rw [IsNameForVariable_iff]
    constructor
    · rintro ⟨c, t, hs, hc, ht⟩
      refine ⟨?_, c, t, hs, ?_, ?_⟩
      · intro h
        rw [h] at hs
        cases hs
      · simpa [inClass_headClass, or_assoc] using hc
      · intro d hd
        have := ht d hd
        rw [inClass_tailClass] at this
        simpa [or_assoc] using this
    · rintro ⟨-, c, t, hs, hc, ht⟩
      refine ⟨c, t, hs, ?_, ?_⟩
      · rw [inClass_headClass]
        simpa [or_assoc] using hc
      · intro d hd
        rw [inClass_tailClass]
        simpa [or_assoc] using ht d hd
  · intro s hs
    cases hval : IsNameForVariable s with
    | false => rfl
    | true =>
      have hall := IsNameForVariable_chars s hval
      rcases hs with h | h
      · exact absurd (hall _ h) (by decide)
      · exact absurd (hall _ h) (by decide)

/-- C1: when the directory can be listed, `ReadDir` returns no error and a map
whose keys are exactly the names of the entries that are not subdirectories,
match the variable-name pattern, can be read and have a non-empty content once
the trailing newlines are removed; no key occurs twice, no value is the empty
string, and a file that is empty or holds only newlines adds no entry. -/
theorem ReadDir_key_set (os : OS) (dir : String) (files : List FileInfo)
    (hlist : os.ReadDir dir = .ok files) :
    (ReadDir os dir).err = none ∧
    (∀ n : String, n ∈ (ReadDir os dir).env.keys ↔
      ∃ f ∈ files, f.Name = n ∧ f.IsDir = false ∧ IsNameForVariable n = true ∧
        ∃ c, os.ReadFile (os.Join dir n) = .ok c ∧ TrimRight c NEWLINE ≠ "") ∧
    (ReadDir os dir).env.keys.Nodup ∧
    (∀ n v : String, (ReadDir os dir).env.get n = some v → v ≠ "") ∧
    (∀ f ∈ files, ∀ c : String, os.ReadFile (os.Join dir f.Name) = .ok c →
      (∀ ch ∈ c.data, ch = '\n') → f.Name ∉ (ReadDir os dir).env.keys) := by
  have hkeys : ∀ n : String, n ∈ (ReadDir os dir).env.keys ↔
      ∃ f ∈ files, f.Name = n ∧ f.IsDir = false ∧ IsNameForVariable n = true ∧
        ∃ c, os.ReadFile (os.Join dir n) = .ok c ∧ TrimRight c NEWLINE ≠ "" := by
    intro n
    rw [ReadDir_ok os dir files hlist]
    rw [fold_keys]
    simp only [EnvironmentList.keys, List.map_nil, List.not_mem_nil, false_or]
    constructor
    · rintro ⟨f, hf, hn, v, hv⟩
      obtain ⟨h1, h2, c, hc, hvc, hne⟩ := (entryValue_eq_some_iff os dir f v).mp hv
      subst hn
      exact ⟨f, hf, rfl, h1, h2, c, hc, by rw [← hvc]; exact hne⟩
    · rintro ⟨f, hf, hn, h1, h2, c, hc, hne⟩
      subst hn
      exact ⟨f, hf, rfl, TrimRight c NEWLINE,
        (entryValue_eq_some_iff os dir f _).mpr ⟨h1, h2, c, hc, rfl, hne⟩⟩
  refine ⟨?_, hkeys, ?_, ?_, ?_⟩
  · rw [ReadDir_ok os dir files hlist]
  · rw [ReadDir_ok os dir files hlist]
    exact fold_nodup os dir files _ List.nodup_nil
  · intro n v hv
    rw [ReadDir_ok os dir files hlist] at hv
    rcases fold_get os dir files _ n v hv with h | ⟨f, -, -, hf⟩
    · simp [EnvironmentList.get] at h
    · exact ((entryValue_eq_some_iff os dir f v).mp hf).2.2.choose_spec.2.2
  · intro f _ c hc hall hmem
    obtain ⟨g, -, hn, -, -, c', hc', hne⟩ := (hkeys f.Name).mp hmem
    rw [hc] at hc'
    cases hc'
    exact hne ((TrimRight_eq_empty_iff c).mpr hall)

/-- C1 at the example directory: the listing succeeds and the keys are the
four qualifying files. -/
theorem ReadDir_key_set_witness :
    exampleOS.ReadDir "/env" =
        .ok [⟨"A", false⟩, ⟨"B_B", false⟩, ⟨"CcC", false⟩, ⟨"Dd12", false⟩, ⟨"E", false⟩,
          ⟨"F", false⟩, ⟨"G", true⟩, ⟨"B.txt", false⟩, ⟨"H", false⟩] ∧
      (ReadDir exampleOS "/env").err = none ∧
      (ReadDir exampleOS "/env").env.keys = ["Dd12", "CcC", "B_B", "A"] ∧
      (ReadDir exampleOS "/env").env.keys.Nodup :=
  ⟨rfl, (ReadDir_key_set exampleOS "/env" _ rfl).1, by decide,
    (ReadDir_key_set exampleOS "/env" _ rfl).2.2.1⟩

/-- C2: every value `ReadDir` stores under a name is the content of that file
with its trailing newlines removed and nothing else changed: the value does
not end with a newline and the content is the value followed by newlines only;
the content `1011\n\n12` keeps its inner newlines and `789\n\n` gives `789`. -/
theorem ReadDir_value_trimmed (os : OS) (dir : String) (files : List FileInfo)
    (hlist : os.ReadDir dir = .ok files) (n v : String)
    (hv : (ReadDir os dir).env.get n = some v) :
    (∃ c : String, os.ReadFile (os.Join dir n) = .ok c ∧ v = TrimRight c NEWLINE ∧
      (∀ w : String, v ≠ w ++ "\n") ∧ ∃ k : Nat, c = v ++ ⟨List.replicate k '\n'⟩) ∧
    TrimRight "1011\n\n12" NEWLINE = "1011\n\n12" ∧ TrimRight "789\n\n" NEWLINE = "789" := by
  refine ⟨?_, by decide, by decide⟩
  rw [ReadDir_ok os dir files hlist] at hv
  rcases fold_get os dir files _ n v hv with h | ⟨f, -, hn, hf⟩
  · simp [EnvironmentList.get] at h
  · obtain ⟨-, -, c, hc, hvc, -⟩ := (entryValue_eq_some_iff os dir f v).mp hf
    subst hn
    refine ⟨c, hc, hvc, ?_, ?_⟩
    · intro w
      rw [hvc]
      exact TrimRight_newline_no_suffix c w
    · rw [hvc]
      exact TrimRight_newline_split c

/-- C2 at the example directory: the file `Dd12` of the tests. -/
theorem ReadDir_value_trimmed_witness :
    (ReadDir exampleOS "/env").env.get "Dd12" = some "1011\n\n12" ∧
      ∃ c : String, exampleOS.ReadFile (exampleOS.Join "/env" "Dd12") = .ok c ∧
        "1011\n\n12" = TrimRight c NEWLINE ∧ (∀ w : String, "1011\n\n12" ≠ w ++ "\n") ∧
        ∃ k : Nat, c = "1011\n\n12" ++ ⟨List.replicate k '\n'⟩ :=
  ⟨by decide, (ReadDir_value_trimmed exampleOS "/env" _ rfl "Dd12" "1011\n\n12" (by decide)).1⟩

/-- C5: when the listing of the directory fails, `ReadDir` returns the error of
the listing and an empty map, and its only effect is the attempt to list: no
file is read. -/
theorem ReadDir_listing_fails (os : OS) (dir msg : String)
    (hlist : os.ReadDir dir = .error msg) :
    (ReadDir os dir).err = some (.sys msg) ∧ (ReadDir os dir).env = [] ∧
      (ReadDir os dir).trace = [.ioutilReadDir dir] ∧
      ∀ path : String, Event.ioutilReadFile path ∉ (ReadDir os dir).trace := by
  simp [ReadDir, hlist]

/-- C5 at a directory that does not exist. -/
theorem ReadDir_listing_fails_witness :
    exampleOS.ReadDir "/not/existing/path" =
        .error "open /not/existing/path: no such file or directory" ∧
      (ReadDir exampleOS "/not/existing/path").err =
        some (.sys "open /not/existing/path: no such file or directory") ∧
      (ReadDir exampleOS "/not/existing/path").env = [] :=
  ⟨rfl, (ReadDir_listing_fails exampleOS "/not/existing/path" _ rfl).1,
    (ReadDir_listing_fails exampleOS "/not/existing/path" _ rfl).2.1⟩

/-- C6: a file of a listable directory whose name matches the pattern and
whose read fails does not stop the scan: `ReadDir` prints the warning, returns
no error and returns the map it returns for the same directory without that
file. -/
theorem ReadDir_unreadable_file (os os' : OS) (dir : String) (l₁ l₂ : List FileInfo)
    (f : FileInfo) (msg : String)
    (hfile : os'.ReadFile = os.ReadFile) (hjoin : os'.Join = os.Join)
    (hlist : os.ReadDir dir = .ok (l₁ ++ f :: l₂))
    (hlist' : os'.ReadDir dir = .ok (l₁ ++ l₂))
    (hdir : f.IsDir = false) (hname : IsNameForVariable f.Name = true)
    (hread : os.ReadFile (os.Join dir f.Name) = .error msg) :
    (ReadDir os dir).err = none ∧ (ReadDir os' dir).err = none ∧
      (ReadDir os dir).env = (ReadDir os' dir).env ∧
      Event.Printf "something bad happened when trying to read file %s\n" [f.Name] ∈
        (ReadDir os dir).trace := by
  rw [ReadDir_ok os dir _ hlist, ReadDir_ok os' dir _ hlist', body_congr os os' dir hfile hjoin]
  refine ⟨rfl, rfl, ?_, ?_⟩
  · simp only [List.foldl_append, List.foldl_cons]
    apply fold_env_congr
    rw [body_read_error os dir _ f msg hdir hname hread]
  · simp only [List.foldl_append, List.foldl_cons]
    obtain ⟨evs, h⟩ := fold_trace_extends os dir l₂
      (ReadDir.body os dir
        (l₁.foldl (ReadDir.body os dir) { env := [], trace := [.ioutilReadDir dir] }) f)
    rw [h, body_read_error os dir _ f msg hdir hname hread]
    simp

/-- C6 at the example directory, whose file `H` cannot be read. -/
theorem ReadDir_unreadable_file_witness :
    exampleOS.ReadFile (exampleOS.Join "/env" "H") = .error "open /env/H: permission denied" ∧
      (ReadDir exampleOS "/env").err = none ∧
      (ReadDir exampleOS "/env").env = (ReadDir exampleOSWithoutH "/env").env ∧
      (ReadDir exampleOS "/env").env.get "A" = some "123" :=
  ⟨rfl,
    (ReadDir_unreadable_file exampleOS exampleOSWithoutH "/env"
      [⟨"A", false⟩, ⟨"B_B", false⟩, ⟨"CcC", false⟩, ⟨"Dd12", false⟩, ⟨"E", false⟩,
        ⟨"F", false⟩, ⟨"G", true⟩, ⟨"B.txt", false⟩] [] ⟨"H", false⟩
      "open /env/H: permission denied" rfl rfl rfl rfl rfl (by decide) rfl).1,
    (ReadDir_unreadable_file exampleOS exampleOSWithoutH "/env"
      [⟨"A", false⟩, ⟨"B_B", false⟩, ⟨"CcC", false⟩, ⟨"Dd12", false⟩, ⟨"E", false⟩,
        ⟨"F", false⟩, ⟨"G", true⟩, ⟨"B.txt", false⟩] [] ⟨"H", false⟩
      "open /env/H: permission denied" rfl rfl rfl rfl rfl (by decide) rfl).2.2.1,
    by decide⟩

/-- C7: with an empty command list `RunCmd` returns its empty-command error
without constructing or starting a process, whatever the map; with a non-empty
command list it constructs and runs the command and the error it returns, if
any, is the one of the run, never the empty-command error. -/
theorem RunCmd_empty_command (os : OS) (e : EnvironmentList) :
    (RunCmd os [] e).err = some (.errorf "command to run is empty") ∧
    (RunCmd os [] e).trace = [] ∧
    ∀ (name : String) (args : List String),
      (RunCmd os (name :: args) e).err ≠ some (.errorf "command to run is empty") ∧
      (RunCmd os (name :: args) e).err =
        (os.Run (RunCmd.command os name args e)).map Error.sys ∧
      (RunCmd os (name :: args) e).trace =
        [.execCommand name args, .cmdRun (RunCmd.command os name args e)] := by
  refine ⟨rfl, rfl, ?_⟩
  intro name args
  simp only [RunCmd]
  cases os.Run (RunCmd.command os name args e) <;> simp

/-- C9, as the code has it: the configuration `RunCmd` builds and runs connects
the standard input and the standard output of the child to those of the calling
process, and the standard error of the child to the standard input of the
calling process, not to its standard error. -/
theorem RunCmd_streams (os : OS) (name : String) (args : List String) (e : EnvironmentList) :
    (RunCmd os (name :: args) e).trace =
      [.execCommand name args, .cmdRun (RunCmd.command os name args e)] ∧
    (RunCmd.command os name args e).Stdin = some File.Stdin ∧
    (RunCmd.command os name args e).Stdout = some File.Stdout ∧
    (RunCmd.command os name args e).Stderr = some File.Stdin ∧
    (RunCmd.command os name args e).Stderr ≠ some File.Stderr := by
  refine ⟨?_, rfl, rfl, rfl, by simp [RunCmd.command]⟩
  simp only [RunCmd]
  cases os.Run (RunCmd.command os name args e) <;> rfl

/-- C10, as the code has it: `stringify` gives one string `key=value` for each
entry and no other, so as many strings as entries and none for the empty map,
in the order the `range` visits the entries; when the map of the test is
visited with `B` first the result is not in ascending order of key. -/
theorem stringify_entries_in_range_order :
    (∀ e : EnvironmentList, e.stringify.length = e.length ∧
      ∀ s : String, s ∈ e.stringify ↔ ∃ k v, (k, v) ∈ e ∧ s = k ++ "=" ++ v) ∧
    EnvironmentList.stringify [] = [] ∧
    EnvironmentList.stringify [("A", "123"), ("B", "456")] = ["A=123", "B=456"] ∧
    EnvironmentList.stringify [("B", "456"), ("A", "123")] = ["B=456", "A=123"] ∧
    EnvironmentList.stringify [("B", "456"), ("A", "123")] ≠ ["A=123", "B=456"] := by
  refine ⟨?_, rfl, by decide, by decide, by decide⟩
  intro e
  refine ⟨by simp [EnvironmentList.stringify], ?_⟩
  intro s
  simp only [EnvironmentList.stringify, List.mem_map, Prod.exists]
  constructor
  · rintro ⟨k, v, h, rfl⟩
    exact ⟨k, v, h, rfl⟩
  · rintro ⟨k, v, h, rfl⟩
    exact ⟨k, v, h, rfl⟩

/-- C8 as stated fails: with an empty string as directory path the program
takes the usage-error path although two positional arguments follow the
program name; and with a directory that cannot be listed `ReadDir` is called
but `RunCmd` is not. -/
theorem usage_path_counterexample :
    ¬ (main exampleOS ["goenvdir", "", "env"] =
          [.Fprint File.Stderr usageMessage, .Exit 1] ↔
        ["goenvdir", "", "env"].length - 1 < 2) ∧
    main exampleOS ["goenvdir", "/not/existing/path", "env"] =
      [.ioutilReadDir "/not/existing/path",
        .Fprintf File.Stderr "open /not/existing/path: no such file or directory\n",
        .Exit 1] := by
  decide

theorem ReadDir_trace_head (os : OS) (dir : String) :
    ∃ evs, (ReadDir os dir).trace = .ioutilReadDir dir :: evs := by
  cases h : os.ReadDir dir with
  | error msg => exact ⟨[], by simp [ReadDir, h]⟩
  | ok files =>
    obtain ⟨evs, hevs⟩ := fold_trace_extends os dir files
      { env := [], trace := [.ioutilReadDir dir] }
    exact ⟨evs, by rw [ReadDir_ok os dir files h]; simpa using hevs⟩

theorem init_short (Args : List String) (h : Args.length < 3) :
    init Args = { EnvDirPath := "", CmdToRun := [] } := by
  simp [init, h]

theorem init_long (prog d c : String) (cmd : List String) :
    init (prog :: d :: c :: cmd) = { EnvDirPath := d, CmdToRun := c :: cmd } := by
  simp [init]

theorem main_of_short (os : OS) (Args : List String) (h : Args.length < 3) :
    main os Args = [.Fprint File.Stderr usageMessage, .Exit 1] := by
  simp [main, init_short Args h, len, EXIT_ERROR_CODE]

theorem main_of_empty_dir (os : OS) (prog c : String) (cmd : List String) :
    main os (prog :: "" :: c :: cmd) = [.Fprint File.Stderr usageMessage, .Exit 1] := by
  have hlen : (len "" == 0) = true := by decide
  simp only [main, init_long, hlen, Bool.true_or, if_true, EXIT_ERROR_CODE]

theorem main_of_args (os : OS) (prog d c : String) (cmd : List String) (hd : d ≠ "") :
    main os (prog :: d :: c :: cmd) =
      (ReadDir os d).trace ++
        match (ReadDir os d).err with
        | some err => [.Fprintf File.Stderr (err.Error ++ "\n"), .Exit 1]
        | none =>
          (RunCmd os (c :: cmd) (ReadDir os d).env).trace ++
            match (RunCmd os (c :: cmd) (ReadDir os d).env).err with
            | some err => [.Fprintf File.Stderr (err.Error ++ "\n"), .Exit 1]
            | none => [.Exit 0] := by
  have hlen : (len d == 0) = false := by
    have := len_eq_zero_iff d
    simp [this, hd]
  simp only [main, init_long, hlen, List.length_cons, Bool.false_or, EXIT_ERROR_CODE,
    EXIT_SUCCESS_CODE]
  cases (ReadDir os d).err with
  | some err => simp
  | none =>
    cases (RunCmd os (c :: cmd) (ReadDir os d).env).err <;> simp

/-- C8, amended: the program takes the usage-error path, printing the usage
message to standard error and exiting with status 1 without calling `ReadDir`
or `RunCmd`, exactly when fewer than two positional arguments follow the
program name or the first of them is the empty string; otherwise `ReadDir` is
called with the first positional argument and, when it returns no error,
`RunCmd` is called with the remaining arguments and the map `ReadDir`
returned. -/
theorem main_usage (os : OS) (Args : List String) :
    (main os Args = [.Fprint File.Stderr usageMessage, .Exit 1] ↔
      Args.length - 1 < 2 ∨ Args.getD 1 "" = "") ∧
    ∀ (prog d : String) (cmd : List String), Args = prog :: d :: cmd → d ≠ "" → cmd ≠ [] →
      ∃ rest, main os Args = (ReadDir os d).trace ++ rest ∧
        (∀ err, (ReadDir os d).err = some err →
          rest = [.Fprintf File.Stderr (err.Error ++ "\n"), .Exit 1]) ∧
        ((ReadDir os d).err = none →
          ∃ last, rest = (RunCmd os cmd (ReadDir os d).env).trace ++ last) := by
  rcases Args with _ | ⟨prog, _ | ⟨d, _ | ⟨c, cmd⟩⟩⟩
  · exact ⟨by simp [main_of_short], by intro _ _ _ h; cases h⟩
  · exact ⟨by simp [main_of_short], by intro _ _ _ h; cases h⟩
  · refine ⟨by simp [main_of_short], ?_⟩
    intro _ _ cmd h _ hcmd
    cases h
    exact absurd rfl hcmd
  · by_cases hd : d = ""
    · subst hd
      refine ⟨by simp [main_of_empty_dir], ?_⟩
      intro _ _ _ h hne _
      cases h
      exact absurd rfl hne
    · obtain ⟨evs, hevs⟩ := ReadDir_trace_head os d
      refine ⟨?_, ?_⟩
      · rw [main_of_args os prog d c cmd hd, hevs]
        simp [hd]
      · intro _ _ _ h _ _
        cases h
        refine ⟨_, main_of_args os prog d c cmd hd, ?_, ?_⟩
        · intro err herr
          simp [herr]
        · intro herr
          simp only [herr]
          exact ⟨_, rfl⟩

/-! ## The environment of the child -/

theorem dropWhile_ne_append (k v : List Char) (h : '=' ∉ k) :
    (k ++ '=' :: v).dropWhile (fun c => c != '=') = '=' :: v := by
  induction k with
  | nil => simp [List.dropWhile]
  | cons a k ih =>
    have ha : a ≠ '=' := fun e => h (by simp [e])
    have hk : '=' ∉ k := fun e => h (List.mem_cons_of_mem _ e)
    have hb : (a != '=') = true := by simpa using ha
    rw [List.cons_append, List.dropWhile_cons, hb, if_pos rfl]
    exact ih hk

theorem takeWhile_ne_append (k v : List Char) (h : '=' ∉ k) :
    (k ++ '=' :: v).takeWhile (fun c => c != '=') = k := by
  induction k with
  | nil => simp [List.takeWhile]
  | cons a k ih =>
    have ha : a ≠ '=' := fun e => h (by simp [e])
    have hk : '=' ∉ k := fun e => h (List.mem_cons_of_mem _ e)
    have hb : (a != '=') = true := by simpa using ha
    rw [List.cons_append, List.takeWhile_cons, hb, if_pos rfl, ih hk]

theorem splitKV_entry (k v : String) (h : '=' ∉ k.data) :
    splitKV (k ++ "=" ++ v) = some (k, v) := by
  have hdata : (k ++ "=" ++ v).data = k.data ++ '=' :: v.data := by
    simp [String.data_append]
  simp only [splitKV, hdata, dropWhile_ne_append k.data v.data h,
    takeWhile_ne_append k.data v.data h]

theorem IsNameForVariable_no_eq (k : String) (h : IsNameForVariable k = true) :
    '=' ∉ k.data := by
  intro hmem
  exact absurd (IsNameForVariable_chars k h _ hmem) (by decide)

theorem lookupEnv_append (l₁ l₂ : List String) (key : String) :
    lookupEnv (l₁ ++ l₂) key = l₂.foldl (lookupStep key) (lookupEnv l₁ key) := by
  simp only [lookupEnv, List.foldl_append]

theorem foldl_stringify_not_mem (key : String) (e : EnvironmentList)
    (hkeys : ∀ k ∈ e.keys, IsNameForVariable k = true) (hk : key ∉ e.keys) :
    ∀ found : Option String, e.stringify.foldl (lookupStep key) found = found := by
  induction e with
  | nil => intro found; rfl
  | cons p e ih =>
    intro found
    obtain ⟨k, v⟩ := p
    have hk1 : k ≠ key := fun h => hk (by simp [EnvironmentList.keys, h])
    have hk2 : key ∉ EnvironmentList.keys e := fun h =>
      hk (by simp only [EnvironmentList.keys, List.map_cons, List.mem_cons]; exact Or.inr h)
    have hname : IsNameForVariable k = true := hkeys k (by simp [EnvironmentList.keys])
    have hrest : ∀ k' ∈ EnvironmentList.keys e, IsNameForVariable k' = true := fun k' h' =>
      hkeys k' (by simp only [EnvironmentList.keys, List.map_cons, List.mem_cons]; exact Or.inr h')
    simp only [EnvironmentList.stringify, List.map_cons, List.foldl_cons]
    have hstep : lookupStep key found (k ++ "=" ++ v) = found := by
      simp only [lookupStep, splitKV_entry k v (IsNameForVariable_no_eq k hname), hk1, if_false]
    rw [hstep]
    exact ih hrest hk2 found

theorem foldl_stringify_get (key value : String) (e : EnvironmentList)
    (hnodup : e.keys.Nodup) (hkeys : ∀ k ∈ e.keys, IsNameForVariable k = true)
    (hget : e.get key = some value) :
    ∀ found : Option String, e.stringify.foldl (lookupStep key) found = some value := by
  induction e with
  | nil => simp [EnvironmentList.get] at hget
  | cons p e ih =>
    intro found
    obtain ⟨k, v⟩ := p
    have hname : IsNameForVariable k = true := hkeys k (by simp [EnvironmentList.keys])
    have hrest : ∀ k' ∈ EnvironmentList.keys e, IsNameForVariable k' = true := fun k' h' =>
      hkeys k' (by simp only [EnvironmentList.keys, List.map_cons, List.mem_cons]; exact Or.inr h')
    have hnd : k ∉ EnvironmentList.keys e ∧ (EnvironmentList.keys e).Nodup := by
      simpa [EnvironmentList.keys] using hnodup
    simp only [EnvironmentList.stringify, List.map_cons, List.foldl_cons]
    by_cases hk : k = key
    · subst hk
      have hv : v = value := by simpa [EnvironmentList.get] using hget
      subst hv
      have hstep : lookupStep k found (k ++ "=" ++ v) = some v := by
        simp only [lookupStep, splitKV_entry k v (IsNameForVariable_no_eq k hname), if_true]
      rw [hstep]
      exact foldl_stringify_not_mem k e hrest hnd.1 (some v)
    · have hstep : lookupStep key found (k ++ "=" ++ v) = found := by
        simp only [lookupStep, splitKV_entry k v (IsNameForVariable_no_eq k hname), hk, if_false]
      rw [hstep]
      have hne : (key == k) = false := by simpa using fun h => hk h.symm
      have hget' : EnvironmentList.get e key = some value := by
        simpa [EnvironmentList.get, List.lookup_cons, hne] using hget
      exact ih hnd.2 hrest hget' found

/-- C4: the child environment `RunCmd` builds and runs the command with is the
inherited environment followed by the entries of the map as `KEY=VALUE`
strings; when the keys of the map match the variable-name pattern, the last
occurrence of every key of the map carries the value of the map, also when the
inherited environment has the key, and every other key has the value it has in
the inherited environment. -/
theorem RunCmd_child_environment (os : OS) (name : String) (args : List String)
    (e : EnvironmentList) (hnodup : e.keys.Nodup)
    (hkeys : ∀ k ∈ e.keys, IsNameForVariable k = true) :
    (RunCmd os (name :: args) e).trace =
      [.execCommand name args, .cmdRun (RunCmd.command os name args e)] ∧
    (RunCmd.command os name args e).Env = os.Environ ++ e.stringify ∧
    (∀ k v : String, e.get k = some v →
      lookupEnv (RunCmd.command os name args e).Env k = some v) ∧
    (∀ k : String, k ∉ e.keys →
      lookupEnv (RunCmd.command os name args e).Env k = lookupEnv os.Environ k) := by
  have henv : (RunCmd.command os name args e).Env = os.Environ ++ e.stringify := rfl
  refine ⟨?_, henv, ?_, ?_⟩
  · simp only [RunCmd]
    cases os.Run (RunCmd.command os name args e) <;> rfl
  · intro k v hget
    rw [henv, lookupEnv_append]
    exact foldl_stringify_get k v e hnodup hkeys hget _
  · intro k hk
    rw [henv, lookupEnv_append]
    exact foldl_stringify_not_mem k e hkeys hk _

/-- C4 at the map of the test, with an inherited environment that already has
the variable `A`. -/
theorem RunCmd_child_environment_witness :
    (RunCmd.command exampleOS "env" [] [("A", "322")]).Env =
        ["PATH=/bin", "A=1", "HOME=/root", "A=322"] ∧
      lookupEnv exampleOS.Environ "A" = some "1" ∧
      lookupEnv (RunCmd.command exampleOS "env" [] [("A", "322")]).Env "A" = some "322" ∧
      lookupEnv (RunCmd.command exampleOS "env" [] [("A", "322")]).Env "HOME" =
        lookupEnv exampleOS.Environ "HOME" :=
  ⟨by decide, by decide,
    (RunCmd_child_environment exampleOS "env" [] [("A", "322")] (by decide)
      (by decide)).2.2.1 "A" "322" (by decide),
    (RunCmd_child_environment exampleOS "env" [] [("A", "322")] (by decide)
      (by decide)).2.2.2 "HOME" (by decide)⟩

end Goenvdir
